import Mathlib

/-!
Shallow embedding of the include-graph builder in `src/graph.py` (the `ig`
tool): directive extraction (`get_includes`), prefix resolution
(`try_prefixes`), graph accumulation (`Graph.add`, `Graph._add_node`,
`Graph._add_edge`, `Graph._get_or_add_node`), the tree walker (`walk`) and
the post-argparse validation in `parse_arguments`.

Paths follow POSIX semantics (`os.sep = '/'`). The filesystem the program
runs against (canonicalization via `os.path.realpath`, existence tests,
text reads, directory enumeration) is modelled as an explicit environment
`FS`. Cosmetic attributes excluded by the spec (random colors and x/y
placement jitter) are omitted from the node record.
-/

namespace Ig

/-- Normalization of one bound of a Python list slice against length `n`:
negative indices count from the end and clamp at 0, non-negative ones clamp
at `n`. -/
def pyIdx (n : Nat) (i : Int) : Nat :=
  if i < 0 then (i + n).toNat else min i.toNat n

/-- Python list slice `l[i:j]`. -/
def pySlice (l : List α) (i j : Int) : List α :=
  (l.take (pyIdx l.length j)).drop (pyIdx l.length i)

/-- posixpath.basename: everything after the last slash. -/
def basename (p : String) : String :=
  String.mk ((p.data.reverse.takeWhile (fun c => c ≠ '/')).reverse)

/-- posixpath.dirname: everything up to the last slash, with trailing
slashes stripped unless the head is all slashes. -/
def dirname (p : String) : String :=
  let head := (p.data.reverse.dropWhile (fun c => c ≠ '/')).reverse
  if head ≠ [] ∧ ¬ (head.all (fun c => c = '/')) then
    String.mk ((head.reverse.dropWhile (fun c => c = '/')).reverse)
  else String.mk head

/-- posixpath.join of two components, as used in `os.path.join(prefix, path)`:
an absolute second component discards the first. -/
def joinPath (a b : String) : String :=
  if b.data.head? = some '/' then b
  else if a = "" ∨ a.data.getLast? = some '/' then a ++ b
  else a ++ "/" ++ b

/-- Python str.split('/') on the character list: splitting on every slash,
keeping empty segments, with `[""]` for the empty string. -/
def splitSlash : List Char → List (List Char)
  | [] => [[]]
  | c :: rest =>
    let r := splitSlash rest
    if c = '/' then [] :: r
    else (c :: r.headI) :: r.tail

/-- Python `s.split(os.sep)` with `os.sep = '/'`. -/
def splitOnSlash (s : String) : List String :=
  (splitSlash s.data).map String.mk

/-- The filesystem environment: `os.path.realpath` (symlink/segment
canonicalization), `os.path.exists`, `os.path.isdir`, opening a file as text
(`none` when the open or read raises, e.g. binary content or permission
denied; otherwise the list of lines, without trailing newlines), and the
`os.walk` + `fnmatch` enumeration performed by `glob(directory, pattern)`. -/
structure FS where
  realpath : String → String
  exists_ : String → Bool
  isdir : String → Bool
  readLines : String → Option (List String)
  globFiles : String → String → List String

/-- One node of the graph: the dict built in `Graph._add_node`, minus the
cosmetic color and x/y jitter. The canonical path is the key under which the
node is stored, not a field of the dict, exactly as in the source. -/
structure Node where
  id : Nat
  size : Nat
  label : String
  group : String
deriving Repr, DecidableEq

/-- One edge dict built in `Graph._add_edge`. -/
structure Edge where
  id : Nat
  size : Nat
  type : String
  source : Nat
  target : Nat
deriving Repr, DecidableEq

/-- The Graph object: `edges` is the append-only list, `nodes` the
insertion-ordered dict keyed by node name, plus the three configuration
fields read by the methods. -/
structure Graph where
  edges : List Edge
  nodes : List (String × Node)
  relation : String
  full_path : Bool
  group_granularity : Int
deriving Repr, DecidableEq

/-- Graph.__init__ (the colors argument is cosmetic and omitted). -/
def Graph.mkEmpty (relation : String) (full_path : Bool)
    (group_granularity : Int) : Graph :=
  { edges := [], nodes := [], relation := relation, full_path := full_path,
    group_granularity := group_granularity }

/-- The group attribute computed in `Graph._add_node`:
`directories = os.path.dirname(node_name).split(os.sep)`,
`begin = len(directories) - group_granularity`, then
`os.sep.join(directories[begin:begin + 2])`. -/
def groupOf (group_granularity : Int) (node_name : String) : String :=
  let directories := splitOnSlash (dirname node_name)
  let b : Int := (directories.length : Int) - group_granularity
  String.intercalate "/" (pySlice directories b (b + 2))

/-- Graph._add_node: `size` is `settings.get('size', 1)`; the id is the
current node count; the label is the name or its basename per `full_path`. -/
def Graph._add_node (g : Graph) (node_name : String) (size : Option Nat) :
    Graph × Node :=
  let node : Node :=
    { id := g.nodes.length
      size := size.getD 1
      label := if g.full_path then node_name else basename node_name
      group := groupOf g.group_granularity node_name }
  ({ g with nodes := g.nodes ++ [(node_name, node)] }, node)

/-- Dict lookup `self.nodes.get(node_name)`. -/
def Graph.findNode (g : Graph) (node_name : String) : Option Node :=
  g.nodes.lookup node_name

/-- Graph._get_or_add_node. -/
def Graph._get_or_add_node (g : Graph) (node_name : String)
    (size : Option Nat) : Graph × Node :=
  match g.findNode node_name with
  | some node => (g, node)
  | none => g._add_node node_name size

/-- Mutation of the stored node dict (`node['size'] = len(neighbors)` in
`Graph.add` updates the dict held in `self.nodes` in place). -/
def Graph.setNode (g : Graph) (node_name : String) (node : Node) : Graph :=
  let ns := g.nodes.map (fun p => if p.1 = node_name then (node_name, node) else p)
  { g with nodes := ns }

/-- Graph._add_edge. In the source the swap
`source, target = target, source` under `relation == 'included-by'` is
executed only after `edge['source']` and `edge['target']` have already been
assigned, so it rebinds the two local names without affecting the appended
edge; the embedding therefore appends the same edge for both relation
modes. -/
def Graph._add_edge (g : Graph) (source target : Node) : Graph :=
  let edge : Edge :=
    { id := g.edges.length, size := 10, type := "curvedArrow"
      source := source.id, target := target.id }
  { g with edges := g.edges ++ [edge] }

/-- Graph.add: get-or-create the node with `size=len(neighbors)`, overwrite
its stored size, then get-or-create each neighbor (default size) and append
one edge per neighbor. Neighbors arrive as the (duplicate-free) list built
by `get_includes`. -/
def Graph.add (g : Graph) (node_name : String) (neighbors : List String) :
    Graph :=
  let gp := g._get_or_add_node node_name (some neighbors.length)
  let node : Node := { gp.2 with size := neighbors.length }
  let g1 := gp.1.setNode node_name node
  neighbors.foldl (fun acc neighbor_name =>
    let gn := acc._get_or_add_node neighbor_name none
    gn.1._add_edge node gn.2) g1

/-- try_prefixes: first `os.path.realpath(os.path.join(prefix, path))` that
exists wins; otherwise the raw token is returned. -/
def try_prefixes (fs : FS) (path : String) (prefixes : List String) : String :=
  match prefixes with
  | [] => path
  | p :: rest =>
    let full_path := fs.realpath (joinPath p path)
    if fs.exists_ full_path then full_path else try_prefixes fs path rest

/-- Python re semantics: `$` also matches just before a single newline at
the very end of the string. -/
def dropFinalNl (l : List Char) : List Char :=
  match l.getLast? with
  | some c => if c = '\n' then l.dropLast else l
  | none => l

/-- re.match of the anchored pattern `^#include ["<](.*)[">]$` against one
line, returning `group(1)`: the literal `#include ` heading, one opening
delimiter from `["<]`, a greedy token in which `.` never matches a newline,
and one closing delimiter from `[">]` at the end. -/
def matchInclude (line : List Char) : Option (List Char) :=
  let l := dropFinalNl line
  if l.take 9 = ("#include ".data) then
    match l.drop 9 with
    | [] => none
    | o :: rest =>
      match rest.getLast? with
      | none => none
      | some c =>
        let tok := rest.dropLast
        if (o = '"' ∨ o = '<') ∧ (c = '"' ∨ c = '>') ∧ ¬ (tok.contains '\n')
        then some tok else none
  else none

/-- get_includes: open the file (a failed open/read propagates as an
exception, modelled as `Except.error`), match each line against the include
pattern, resolve each matched token through `try_prefixes` and collect the
results into a set. The Python `set` is modelled as a duplicate-free list in
first-insertion order. -/
def get_includes (fs : FS) (filename : String) (prefixes : List String) :
    Except String (List String) :=
  match fs.readLines filename with
  | none => .error filename
  | some lines => .ok (lines.foldl (fun includes line =>
      match matchInclude line.data with
      | some m =>
        let full_path := try_prefixes fs (String.mk m) prefixes
        if full_path ∈ includes then includes else includes ++ [full_path]
      | none => includes) [])

/-- The argparse namespace fields consumed by `walk`. -/
structure Args where
  directories : List String
  patterns : List String
  prefixes : List String
  verbose : Bool
deriving Repr

/-- Body of the innermost loop of `walk`: skip directories matched by the
glob (the verbose diagnostic is I/O and omitted), otherwise extract and
resolve the includes with prefix list `[path] + args.prefixes` and register
the file; an exception from `get_includes` propagates. -/
def walkFile (fs : FS) (args : Args) (path : String) (g : Graph)
    (filename : String) : Except String Graph :=
  if fs.isdir filename then .ok g
  else match get_includes fs filename (path :: args.prefixes) with
    | .error e => .error e
    | .ok includes => .ok (g.add filename includes)

/-- One iteration of the pattern loop of `walk`:
`path = os.path.realpath(directory)`, then every glob hit is processed. -/
def walkPattern (fs : FS) (args : Args) (directory : String) (g : Graph)
    (pat : String) : Except String Graph :=
  let path := fs.realpath directory
  (fs.globFiles path pat).foldlM (walkFile fs args path) g

/-- walk: both loops; any exception raised while processing one file aborts
the remaining iterations, as unwinding does in the source. -/
def walk (fs : FS) (g : Graph) (args : Args) : Except String Graph :=
  args.directories.foldlM (fun acc directory =>
    args.patterns.foldlM (walkPattern fs args directory) acc) g

/-- The argparse result consumed by `parse_arguments` after argparse itself
has enforced types and the `--relation` choices; `--color-alpha-min` is a
float compared only against 0 and 1, modelled exactly by a rational. -/
structure CliArgs where
  directories : List String
  patterns : List String
  prefixes : List String
  verbose : Bool
  port : Nat
  relation : String
  group_granularity : Int
  full_path : Bool
  color_variation : Int
  color_alpha_min : Rat
deriving Repr, DecidableEq

/-- The body of `parse_arguments` after `parser.parse_args(args)` returns:
append the empty prefix needed for standard includes, then raise
RuntimeError iff `--color-alpha-min` lies outside `[0, 1]`. No other
configuration value is validated. -/
def parse_arguments (args : CliArgs) : Except String CliArgs :=
  let args := { args with prefixes := args.prefixes ++ [""] }
  if ¬ (0 ≤ args.color_alpha_min ∧ args.color_alpha_min ≤ 1) then
    .error "--color-alpha-min must be in interval [0, 1]"
  else .ok args

instance {ε α : Type} [DecidableEq ε] [DecidableEq α] : DecidableEq (Except ε α) :=
  fun a b =>
    match a, b with
    | .ok x, .ok y =>
      if h : x = y then isTrue (by rw [h]) else isFalse (by intro hh; cases hh; exact h rfl)
    | .error x, .error y =>
      if h : x = y then isTrue (by rw [h]) else isFalse (by intro hh; cases hh; exact h rfl)
    | .ok _, .error _ => isFalse (by intro hh; cases hh)
    | .error _, .ok _ => isFalse (by intro hh; cases hh)

/-- Running a sequence of registrations, the only way the Walker mutates the
graph during its single traversal pass. -/
def runAdds (g : Graph) (ops : List (String × List String)) : Graph :=
  ops.foldl (fun acc op => acc.add op.1 op.2) g

/-! Concrete filesystem and argument fixtures for witnesses and
counterexamples. -/

/-- Filesystem in which `a.cpp` holds two `#include` lines that resolve to
the same token `b.h`; nothing exists on disk. -/
def fsDup : FS :=
  { realpath := fun p => p
    exists_ := fun _ => false
    isdir := fun _ => false
    readLines := fun p =>
      if p = "a.cpp" then some ["#include \"b.h\"", "#include \"b.h\""] else none
    globFiles := fun _ _ => [] }

/-- Filesystem whose glob yields an unreadable file `/r/bad.c` followed by a
readable `/r/good.c`. -/
def fsUnreadable : FS :=
  { realpath := fun p => p
    exists_ := fun p => p = "/r" ∨ p = "/r/bad.c" ∨ p = "/r/good.c"
    isdir := fun p => p = "/r"
    readLines := fun p =>
      if p = "/r/good.c" then some ["#include <vector>"] else none
    globFiles := fun d pat =>
      if d = "/r" ∧ pat = "*.c" then ["/r/bad.c", "/r/good.c"] else [] }

/-- Filesystem with `/root/a/x.h` including `"y.h"` and its sibling
`/root/a/y.h`; realpath is the identity (no symlinks). -/
def fsSibling : FS :=
  { realpath := fun p => p
    exists_ := fun p => p = "/root/a" ∨ p = "/root/a/x.h" ∨ p = "/root/a/y.h"
    isdir := fun p => p = "/root/a"
    readLines := fun p =>
      if p = "/root/a/x.h" then some ["#include \"y.h\""]
      else if p = "/root/a/y.h" then some []
      else none
    globFiles := fun d pat =>
      if d = "/root/a" ∧ pat = "*.[ch]" then ["/root/a/x.h", "/root/a/y.h"]
      else [] }

/-- Walker arguments for `fsSibling`: the scanned root `/root/a` is absent
from the configured prefix list. -/
def argsSibling : Args :=
  { directories := ["/root/a"], patterns := ["*.[ch]"]
    prefixes := ["/cwd", ""], verbose := false }

/-- Filesystem in which `inc/sub` exists but is a directory, not a file. -/
def fsDirHit : FS :=
  { realpath := fun p => p
    exists_ := fun p => p = "inc" ∨ p = "inc/sub"
    isdir := fun p => p = "inc" ∨ p = "inc/sub"
    readLines := fun _ => none
    globFiles := fun _ _ => [] }

/-- Filesystem with a single readable file `/r/a.c` containing one include. -/
def fsTiny : FS :=
  { realpath := fun p => p
    exists_ := fun _ => false
    isdir := fun _ => false
    readLines := fun p =>
      if p = "/r/a.c" then some ["#include <vector>"] else none
    globFiles := fun d pat =>
      if d = "/r" ∧ pat = "*.c" then ["/r/a.c"] else [] }

/-- Projection of the parsed argparse namespace onto the fields `walk`
reads; `main` passes the namespace object itself. -/
def Args.ofCli (a : CliArgs) : Args :=
  { directories := a.directories, patterns := a.patterns
    prefixes := a.prefixes, verbose := a.verbose }

/-- Command line for the sibling-include scenario: scan `/root/a` with
pattern `*.[ch]`, configured prefix `/cwd` only, relation `includes`. -/
def cliSibling : CliArgs :=
  { directories := ["/root/a"], patterns := ["*.[ch]"], prefixes := ["/cwd"]
    verbose := false, port := 8080, relation := "includes"
    group_granularity := 2, full_path := false, color_variation := 200
    color_alpha_min := 1 }

/-- The graph the walk over `fsSibling` produces: one edge from `x.h`
(identity 0) to the canonical sibling `/root/a/y.h` (identity 1). -/
def graphSibling : Graph :=
  { edges := [{ id := 0, size := 10, type := "curvedArrow", source := 0, target := 1 }]
    nodes := [("/root/a/x.h", { id := 0, size := 1, label := "x.h", group := "root/a" }),
              ("/root/a/y.h", { id := 1, size := 0, label := "y.h", group := "root/a" })]
    relation := "includes", full_path := false, group_granularity := 2 }

/-- Parsed command line with a negative `--group-granularity` and all other
values at their defaults. -/
def cliNegGran : CliArgs :=
  { directories := ["/r"], patterns := ["*.c"], prefixes := ["/cwd"]
    verbose := false, port := 8080, relation := "included-by"
    group_granularity := -1, full_path := false, color_variation := 200
    color_alpha_min := 1 }

/-- The group key as claim C8 words it: the last `g` trailing directory
segments of the path, separator-joined, excluding the filename. -/
def lastSegmentsGroup (g : Nat) (node_name : String) : String :=
  let directories := splitOnSlash (dirname node_name)
  String.intercalate "/" (directories.drop (directories.length - g))

/-- The resolver as claim C5 words it (for comparison with `try_prefixes`):
the first canonical candidate that exists as a file on the filesystem, or
the raw token when no prefix yields an existing file. -/
def resolveFirstFile (fs : FS) (path : String) : List String → String
  | [] => path
  | p :: rest =>
    let full_path := fs.realpath (joinPath p path)
    if fs.exists_ full_path = true ∧ fs.isdir full_path = false then full_path
    else resolveFirstFile fs path rest

/-! Helper lemmas. -/

lemma dropFinalNl_of_getLast_ne (l : List Char) (c : Char)
    (h : l.getLast? = some c) (hc : c ≠ '\n') : dropFinalNl l = l := by
  unfold dropFinalNl
  rw [h]
  simp [hc]

lemma dropFinalNl_of_not_contains (l : List Char)
    (h : ¬ (l.contains '\n' = true)) : dropFinalNl l = l := by
  unfold dropFinalNl
  cases hl : l.getLast? with
  | none => rfl
  | some c =>
    have hmem : c ∈ l := List.mem_of_getLast?_eq_some hl
    have hc : c ≠ '\n' := by
      intro hc
      subst hc
      exact h (by simpa using hmem)
    simp [hc]

lemma matchInclude_some_inv (line tok : List Char)
    (hs : matchInclude line = some tok) :
    ∃ o c, (o = '"' ∨ o = '<') ∧ (c = '"' ∨ c = '>') ∧
      ¬ (tok.contains '\n' = true) ∧
      dropFinalNl line = "#include ".data ++ o :: (tok ++ [c]) := by
  simp only [matchInclude] at hs
  split at hs
  · split at hs
    next hdrop => exact absurd hs (by simp)
    next o rest hdrop =>
      split at hs
      next hlast => exact absurd hs (by simp)
      next c hlast =>
        split at hs
        next hcond =>
          obtain ⟨ho, hc, hnl⟩ := hcond
          have htok : rest.dropLast = tok := Option.some.inj hs
          rw [htok] at hnl
          refine ⟨o, c, ho, hc, hnl, ?_⟩
          have hsp : dropFinalNl line
              = (dropFinalNl line).take 9 ++ (dropFinalNl line).drop 9 :=
            (List.take_append_drop _ _).symm
          rw [hsp, hdrop]
          have hne : rest ≠ [] := by
            intro h0
            rw [h0] at hlast
            simp at hlast
          have hgl : rest.getLast hne = c := by
            have hq := List.getLast?_eq_getLast rest hne
            rw [hlast] at hq
            exact (Option.some.inj hq).symm
          have hrest : rest = tok ++ [c] := by
            rw [← htok, ← hgl]
            exact (List.dropLast_append_getLast hne).symm
          rw [hrest]
          congr 1
        next => exact absurd hs (by simp)
  · exact absurd hs (by simp)

lemma matchInclude_build (o c : Char) (tok : List Char)
    (ho : o = '"' ∨ o = '<') (hc : c = '"' ∨ c = '>')
    (ht : ¬ (tok.contains '\n' = true)) :
    matchInclude ("#include ".data ++ o :: (tok ++ [c])) = some tok := by
  have hcne : c ≠ '\n' := by rcases hc with rfl | rfl <;> decide
  have hassoc : "#include ".data ++ o :: (tok ++ [c])
      = ("#include ".data ++ o :: tok) ++ [c] := by simp
  have h1 : dropFinalNl ("#include ".data ++ o :: (tok ++ [c]))
      = "#include ".data ++ o :: (tok ++ [c]) := by
    apply dropFinalNl_of_getLast_ne _ c _ hcne
    rw [hassoc, List.getLast?_concat]
  have htake : ("#include ".data ++ o :: (tok ++ [c])).take 9
      = "#include ".data := List.take_left' (by decide)
  have hdrop : ("#include ".data ++ o :: (tok ++ [c])).drop 9
      = o :: (tok ++ [c]) := List.drop_left' (by decide)
  simp only [matchInclude, h1, htake, hdrop, List.getLast?_concat,
    List.dropLast_concat, if_true, eq_self_iff_true]
  rw [if_pos ⟨ho, hc, ht⟩]

lemma edges_get_or_add (g : Graph) (n : String) (sz : Option Nat) :
    (g._get_or_add_node n sz).1.edges = g.edges := by
  unfold Graph._get_or_add_node
  cases hf : g.findNode n <;> simp [hf, Graph._add_node]

lemma edges_setNode (g : Graph) (n : String) (node : Node) :
    (g.setNode n node).edges = g.edges := rfl

lemma edges_add_edge (g : Graph) (s t : Node) :
    (g._add_edge s t).edges.length = g.edges.length + 1 := by
  simp [Graph._add_edge]

lemma foldl_add_edges_length (node : Node) (ns : List String) :
    ∀ g0 : Graph,
      (ns.foldl (fun acc neighbor_name =>
        let gn := acc._get_or_add_node neighbor_name none
        gn.1._add_edge node gn.2) g0).edges.length = g0.edges.length + ns.length := by
  induction ns with
  | nil => intro g0; simp
  | cons nb rest ih =>
    intro g0
    rw [List.foldl_cons, ih]
    have : ((g0._get_or_add_node nb none).1._add_edge node
        (g0._get_or_add_node nb none).2).edges.length = g0.edges.length + 1 := by
      rw [edges_add_edge, edges_get_or_add]
    simp only [this, List.length_cons]
    omega

lemma add_edges_length (g : Graph) (n : String) (ns : List String) :
    (g.add n ns).edges.length = g.edges.length + ns.length := by
  show (ns.foldl _ ((g._get_or_add_node n (some ns.length)).1.setNode n _)).edges.length = _
  rw [foldl_add_edges_length]
  rw [edges_setNode, edges_get_or_add]

lemma includes_fold_nodup (fs : FS) (ps : List String) (lines : List String) :
    ∀ acc : List String, acc.Nodup →
      (lines.foldl (fun includes line =>
        match matchInclude line.data with
        | some m =>
          let full_path := try_prefixes fs (String.mk m) ps
          if full_path ∈ includes then includes else includes ++ [full_path]
        | none => includes) acc).Nodup := by
  induction lines with
  | nil => intro acc h; exact h
  | cons line rest ih =>
    intro acc h
    rw [List.foldl_cons]
    apply ih
    cases hm : matchInclude line.data with
    | none => simpa [hm] using h
    | some m =>
      simp only [hm]
      split
      · exact h
      · refine h.append (List.nodup_singleton _) ?_
        intro x hx hx1
        simp only [List.mem_singleton] at hx1
        subst hx1
        exact absurd hx ‹_›

lemma get_includes_nodup (fs : FS) (filename : String) (ps : List String)
    (l : List String) (h : get_includes fs filename ps = .ok l) : l.Nodup := by
  unfold get_includes at h
  cases hr : fs.readLines filename with
  | none => rw [hr] at h; exact absurd h (by simp)
  | some lines =>
    rw [hr] at h
    simp only [Except.ok.injEq] at h
    subst h
    exact includes_fold_nodup fs ps lines [] List.nodup_nil

lemma not_mem_keys_of_lookup_none (l : List (String × Node)) (a : String)
    (h : l.lookup a = none) : a ∉ l.map Prod.fst := by
  induction l with
  | nil => simp
  | cons q rest ih =>
    obtain ⟨k, b⟩ := q
    cases ha : (a == k) with
    | true =>
      rw [List.lookup_cons, ha] at h
      simp at h
    | false =>
      rw [List.lookup_cons, ha] at h
      simp only [cond_false] at h
      have hak : a ≠ k := ne_of_beq_false ha
      simp only [List.map_cons, List.mem_cons]
      intro hc
      rcases hc with hc | hc
      · exact hak hc
      · exact ih h hc

lemma keys_nodup_get_or_add (g : Graph) (n : String) (sz : Option Nat)
    (h : (g.nodes.map Prod.fst).Nodup) :
    ((g._get_or_add_node n sz).1.nodes.map Prod.fst).Nodup := by
  unfold Graph._get_or_add_node Graph.findNode
  cases hf : g.nodes.lookup n with
  | some node => simpa using h
  | none =>
    simp only [Graph._add_node, List.map_append, List.map_cons, List.map_nil]
    refine h.append (List.nodup_singleton n) ?_
    intro x hx hx1
    simp only [List.mem_singleton] at hx1
    subst hx1
    exact not_mem_keys_of_lookup_none g.nodes x hf hx

lemma map_fst_setNodeList (l : List (String × Node)) (n : String)
    (node : Node) :
    (l.map (fun p => if p.1 = n then (n, node) else p)).map Prod.fst
      = l.map Prod.fst := by
  induction l with
  | nil => rfl
  | cons q rest ih =>
    simp only [List.map_cons, ih]
    congr 1
    by_cases hq : q.1 = n
    · simp [hq]
    · simp [hq]

lemma keys_setNode (g : Graph) (n : String) (node : Node) :
    (g.setNode n node).nodes.map Prod.fst = g.nodes.map Prod.fst := by
  show (g.nodes.map _).map Prod.fst = _
  exact map_fst_setNodeList g.nodes n node

lemma keys_nodup_add_neighbors (node : Node) (ns : List String) :
    ∀ g0 : Graph, (g0.nodes.map Prod.fst).Nodup →
      ((ns.foldl (fun acc neighbor_name =>
        let gn := acc._get_or_add_node neighbor_name none
        gn.1._add_edge node gn.2) g0).nodes.map Prod.fst).Nodup := by
  induction ns with
  | nil => intro g0 h; exact h
  | cons nb rest ih =>
    intro g0 h
    rw [List.foldl_cons]
    apply ih
    show (((g0._get_or_add_node nb none).1._add_edge node
      (g0._get_or_add_node nb none).2).nodes.map Prod.fst).Nodup
    have he : ((g0._get_or_add_node nb none).1._add_edge node
        (g0._get_or_add_node nb none).2).nodes
        = (g0._get_or_add_node nb none).1.nodes := rfl
    rw [he]
    exact keys_nodup_get_or_add g0 nb none h

lemma keys_nodup_add (g : Graph) (n : String) (ns : List String)
    (h : (g.nodes.map Prod.fst).Nodup) :
    ((g.add n ns).nodes.map Prod.fst).Nodup := by
  show ((ns.foldl _
    ((g._get_or_add_node n (some ns.length)).1.setNode n _)).nodes.map
      Prod.fst).Nodup
  apply keys_nodup_add_neighbors
  rw [keys_setNode]
  exact keys_nodup_get_or_add g n (some ns.length) h

lemma keys_nodup_runAdds (ops : List (String × List String)) :
    ∀ g0 : Graph, (g0.nodes.map Prod.fst).Nodup →
      ((runAdds g0 ops).nodes.map Prod.fst).Nodup := by
  induction ops with
  | nil => intro g0 h; exact h
  | cons op rest ih =>
    intro g0 h
    show (((rest.foldl _ (g0.add op.1 op.2))).nodes.map Prod.fst).Nodup
    exact ih (g0.add op.1 op.2) (keys_nodup_add g0 op.1 op.2 h)

/-! Claim theorems. -/

/-- C1: the spec requires that with direction mode `included-by` an edge for
"A includes B" has source = B and target = A. In the code the swap
`source, target = target, source` runs only after both edge fields are
assigned, so the appended edge still has source = A's identity and
target = B's identity: registering `a.cpp` (identity 0) with include `b.h`
(identity 1) under `included-by` yields an edge with source 0 and target 1. -/
theorem included_by_edge_not_reversed :
    ((Graph.mkEmpty "included-by" false 2).add "a.cpp" ["b.h"]).findNode "a.cpp" =
      some { id := 0, size := 1, label := "a.cpp", group := "" } ∧
    ((Graph.mkEmpty "included-by" false 2).add "a.cpp" ["b.h"]).findNode "b.h" =
      some { id := 1, size := 1, label := "b.h", group := "" } ∧
    ((Graph.mkEmpty "included-by" false 2).add "a.cpp" ["b.h"]).edges =
      [{ id := 0, size := 10, type := "curvedArrow", source := 0, target := 1 }] := by
  refine ⟨by decide, by decide, by decide⟩

/-- C2 counterexample: a file with two `#include "b.h"` lines produces an
include set with a single element, and registering it creates exactly one
edge, not two — `get_includes` collects into a set, deduplicating per file. -/
theorem duplicate_includes_single_edge :
    get_includes fsDup "a.cpp" [""] = .ok ["b.h"] ∧
    ((Graph.mkEmpty "included-by" false 2).add "a.cpp" ["b.h"]).edges.length = 1 := by
  refine ⟨by decide, by decide⟩

/-- C2 amended: repeated `#include` directives in one scanned file that
resolve to the same path are deduplicated by the per-file include set, so
registering the file creates one edge per distinct resolved include; the
edge list itself is append-only, growing by exactly the size of that set on
every registration (no cross-registration deduplication). -/
theorem includes_deduplicated_edges_per_registration (fs : FS)
    (filename : String) (ps : List String) (l : List String) (g : Graph)
    (n : String) (h : get_includes fs filename ps = .ok l) :
    l.Nodup ∧ (g.add n l).edges.length = g.edges.length + l.length :=
  ⟨get_includes_nodup fs filename ps l h, add_edges_length g n l⟩

/-- C2 amended, witness: evaluated on `fsDup`, whose file `a.cpp` repeats
`#include "b.h"`. -/
theorem includes_deduplicated_edges_per_registration_witness :
    (["b.h"] : List String).Nodup ∧
    ((Graph.mkEmpty "included-by" false 2).add "a.cpp" ["b.h"]).edges.length =
      (Graph.mkEmpty "included-by" false 2).edges.length + 1 :=
  includes_deduplicated_edges_per_registration fsDup "a.cpp" [""] ["b.h"]
    (Graph.mkEmpty "included-by" false 2) "a.cpp" rfl

/-- C6 counterexample: a parsed command line with `--group-granularity -1`
passes `parse_arguments` without error, and the subsequent walk also runs to
completion — a negative group granularity is never detected as an
invalid-configuration error. -/
theorem negative_granularity_accepted :
    parse_arguments cliNegGran = .ok { cliNegGran with prefixes := ["/cwd", ""] } ∧
    (walk fsTiny (Graph.mkEmpty "included-by" false (-1))
      { directories := ["/r"], patterns := ["*.c"], prefixes := ["/cwd", ""]
        verbose := false }).isOk = true := by
  refine ⟨by decide, by decide⟩

/-- C6 amended: `parse_arguments` validates only `--color-alpha-min`;
whether it succeeds is independent of the configured group granularity, so a
negative granularity is accepted and scanning proceeds. -/
theorem parse_arguments_ignores_granularity (a : CliArgs) (gg : Int) :
    ((parse_arguments a).isOk = true ↔
      0 ≤ a.color_alpha_min ∧ a.color_alpha_min ≤ 1) ∧
    (parse_arguments { a with group_granularity := gg }).isOk =
      (parse_arguments a).isOk := by
  unfold parse_arguments
  by_cases h : 0 ≤ a.color_alpha_min ∧ a.color_alpha_min ≤ 1 <;>
    simp [h, Except.isOk, Except.toBool]

/-- C8 counterexample: with group granularity 3 the node for
`/proj/src/lib/foo.cpp` gets group key `proj/src` — a two-segment window
starting three segments from the end — not the last three trailing segments
`proj/src/lib` the claim requires. -/
theorem group_key_granularity_three_window :
    ((Graph.mkEmpty "includes" false 3)._add_node "/proj/src/lib/foo.cpp" none).2.group
      = "proj/src" ∧
    lastSegmentsGroup 3 "/proj/src/lib/foo.cpp" = "proj/src/lib" ∧
    ("proj/src" : String) ≠ "proj/src/lib" := by
  refine ⟨by decide, by decide, by decide⟩

/-- C8 amended: for granularity `gg` between 0 and the number of directory
segments, the group key is the window of at most two consecutive segments
that starts `gg` segments from the end of the dirname's segment list (so for
granularity 2 it is the last two segments, e.g. `src/lib` for
`/proj/src/lib/foo.cpp`). -/
theorem group_key_is_two_window (g : Graph) (node_name : String)
    (sz : Option Nat) (gg : Nat) (h1 : g.group_granularity = (gg : Int))
    (h2 : gg ≤ (splitOnSlash (dirname node_name)).length) :
    (g._add_node node_name sz).2.group =
      String.intercalate "/"
        (((splitOnSlash (dirname node_name)).drop
          ((splitOnSlash (dirname node_name)).length - gg)).take 2) := by
  have hg : (g._add_node node_name sz).2.group
      = groupOf g.group_granularity node_name := rfl
  rw [hg, h1]
  simp only [groupOf, pySlice]
  set ds := splitOnSlash (dirname node_name) with hds
  have e1 : pyIdx ds.length ((ds.length : Int) - (gg : Int)) = ds.length - gg := by
    unfold pyIdx
    split
    · omega
    · have h3 : ((ds.length : Int) - (gg : Int)).toNat = ds.length - gg := by omega
      rw [h3]; omega
  have e2 : pyIdx ds.length ((ds.length : Int) - (gg : Int) + 2)
      = min (ds.length - gg + 2) ds.length := by
    unfold pyIdx
    split
    · omega
    · have h3 : ((ds.length : Int) - (gg : Int) + 2).toNat = ds.length - gg + 2 := by
        omega
      rw [h3]
  rw [e1, e2, List.drop_take]
  rcases le_or_lt 2 gg with hc | hc
  · have h4 : min (ds.length - gg + 2) ds.length - (ds.length - gg) = 2 := by omega
    rw [h4]
  · have hlen : (ds.drop (ds.length - gg)).length = gg := by
      rw [List.length_drop]; omega
    have hmin : min (ds.length - gg + 2) ds.length - (ds.length - gg) = gg := by
      omega
    rw [hmin, List.take_of_length_le (le_of_eq hlen),
      List.take_of_length_le (by omega)]

/-- C5 counterexample: `os.path.exists` is also true for directories.
With a directory `inc/sub` on disk and token `sub`, `try_prefixes` returns
the directory path `inc/sub`, while the claim — first candidate that exists
as a *file*, else the raw token — demands `sub`. -/
theorem resolve_accepts_directory_hit :
    try_prefixes fsDirHit "sub" ["inc"] = "inc/sub" ∧
    fsDirHit.exists_ "inc/sub" = true ∧
    fsDirHit.isdir "inc/sub" = true ∧
    resolveFirstFile fsDirHit "sub" ["inc"] = "sub" ∧
    ("inc/sub" : String) ≠ "sub" := by
  refine ⟨by decide, by decide, by decide, by decide, by decide⟩

/-- C5 amended: `try_prefixes` tries each prefix in order, canonicalizing
`prefix/token` with realpath, and returns the first canonical candidate that
exists on the filesystem (whether file or directory); if no prefix yields an
existing path it returns the raw token unchanged, raising no error. -/
theorem try_prefixes_first_existing (fs : FS) (path : String)
    (prefixes : List String) :
    (∃ pre p suf, prefixes = pre ++ p :: suf ∧
      (∀ q ∈ pre, fs.exists_ (fs.realpath (joinPath q path)) = false) ∧
      fs.exists_ (fs.realpath (joinPath p path)) = true ∧
      try_prefixes fs path prefixes = fs.realpath (joinPath p path)) ∨
    ((∀ q ∈ prefixes, fs.exists_ (fs.realpath (joinPath q path)) = false) ∧
      try_prefixes fs path prefixes = path) := by
  induction prefixes with
  | nil => exact Or.inr ⟨by simp, rfl⟩
  | cons q rest ih =>
    by_cases hq : fs.exists_ (fs.realpath (joinPath q path)) = true
    · exact Or.inl ⟨[], q, rest, rfl, by simp, hq, by simp [try_prefixes, hq]⟩
    · have hq' : fs.exists_ (fs.realpath (joinPath q path)) = false := by
        simpa using hq
      have ht : try_prefixes fs path (q :: rest) = try_prefixes fs path rest := by
        simp [try_prefixes, hq']
      rcases ih with ⟨pre, p, suf, hsplit, hpre, hp, hres⟩ | ⟨hall, hres⟩
      · refine Or.inl ⟨q :: pre, p, suf, by rw [hsplit]; rfl, ?_, hp,
          by rw [ht, hres]⟩
        intro x hx
        rcases List.mem_cons.mp hx with rfl | hx
        · exact hq'
        · exact hpre x hx
      · refine Or.inr ⟨?_, by rw [ht, hres]⟩
        intro x hx
        rcases List.mem_cons.mp hx with rfl | hx
        · exact hq'
        · exact hall x hx

/-- C10: the anchored pattern accepts mismatched delimiter pairs: for any
newline-free token, `#include "token>` and `#include <token"` both extract
the token, exactly as the matched-delimiter forms `#include "token"` and
`#include <token>` do. -/
theorem mismatched_delimiters_extracted (tok : List Char)
    (h : ¬ (tok.contains '\n' = true)) :
    matchInclude ("#include \"".data ++ (tok ++ [ '>' ])) = some tok ∧
    matchInclude ("#include <".data ++ (tok ++ [ '"' ])) = some tok ∧
    matchInclude ("#include \"".data ++ (tok ++ [ '"' ])) = some tok ∧
    matchInclude ("#include <".data ++ (tok ++ [ '>' ])) = some tok := by
  have e1 : ("#include \"".data : List Char) = "#include ".data ++ [ '"' ] := by
    decide
  have e2 : ("#include <".data : List Char) = "#include ".data ++ [ '<' ] := by
    decide
  refine ⟨?_, ?_, ?_, ?_⟩
  · rw [e1, List.append_assoc, List.singleton_append]
    exact matchInclude_build '"' '>' tok (Or.inl rfl) (Or.inr rfl) h
  · rw [e2, List.append_assoc, List.singleton_append]
    exact matchInclude_build '<' '"' tok (Or.inr rfl) (Or.inl rfl) h
  · rw [e1, List.append_assoc, List.singleton_append]
    exact matchInclude_build '"' '"' tok (Or.inl rfl) (Or.inl rfl) h
  · rw [e2, List.append_assoc, List.singleton_append]
    exact matchInclude_build '<' '>' tok (Or.inr rfl) (Or.inr rfl) h

/-- C10 witness: the mismatched forms evaluated on the token `x.h`. -/
theorem mismatched_delimiters_extracted_witness :
    matchInclude ("#include \"".data ++ ("x.h".data ++ [ '>' ])) = some "x.h".data ∧
    matchInclude ("#include <".data ++ ("x.h".data ++ [ '"' ])) = some "x.h".data ∧
    matchInclude ("#include \"".data ++ ("x.h".data ++ [ '"' ])) = some "x.h".data ∧
    matchInclude ("#include <".data ++ ("x.h".data ++ [ '>' ])) = some "x.h".data :=
  mismatched_delimiters_extracted ("x.h".data) (by decide)

/-- C7: a line yields an include token iff it matches the anchored
directive pattern — the literal `#include ` heading from the very first
character (no leading whitespace), one opening delimiter from `["<]`, the
token, and one closing delimiter from `[">]` as the last character (no
trailing content); in particular a leading-whitespace line and a line with
a trailing comment are not extracted. -/
theorem include_line_extraction_anchored (line tok : List Char)
    (h : ¬ (line.contains '\n' = true)) :
    (matchInclude line = some tok ↔
      ∃ o c, (o = '"' ∨ o = '<') ∧ (c = '"' ∨ c = '>') ∧
        line = "#include ".data ++ o :: (tok ++ [c])) ∧
    matchInclude "  #include \"x.h\"".data = none ∧
    matchInclude "#include \"x.h\" // comment".data = none := by
  have hdnl : dropFinalNl line = line := dropFinalNl_of_not_contains line h
  refine ⟨⟨?_, ?_⟩, by decide, by decide⟩
  · intro hs
    obtain ⟨o, c, ho, hc, _, hline⟩ := matchInclude_some_inv line tok hs
    rw [hdnl] at hline
    exact ⟨o, c, ho, hc, hline⟩
  · rintro ⟨o, c, ho, hc, rfl⟩
    apply matchInclude_build o c tok ho hc
    intro hcontains
    apply h
    have hmem : '\n' ∈ tok := by simpa using hcontains
    have : '\n' ∈ "#include ".data ++ o :: (tok ++ [c]) := by
      refine List.mem_append_right _ (List.mem_cons_of_mem _ ?_)
      exact List.mem_append_left _ hmem
    simpa using this

/-- C7 witness: the characterization and the two negative examples,
evaluated at the line `#include "x.h"` with token `x.h`. -/
theorem include_line_extraction_anchored_witness :
    (matchInclude "#include \"x.h\"".data = some "x.h".data ↔
      ∃ o c, (o = '"' ∨ o = '<') ∧ (c = '"' ∨ c = '>') ∧
        "#include \"x.h\"".data = "#include ".data ++ o :: ("x.h".data ++ [c])) ∧
    matchInclude "  #include \"x.h\"".data = none ∧
    matchInclude "#include \"x.h\" // comment".data = none :=
  include_line_extraction_anchored ("#include \"x.h\"".data) ("x.h".data)
    (by decide)

/-- C3 counterexample: the glob enumerates the unreadable `/r/bad.c` before
the readable `/r/good.c`; the walk neither skips the bad file nor continues
— it aborts with the propagated read error, so the claim that the walk
completes and the run does not abort fails. -/
theorem unreadable_file_aborts_walk :
    fsUnreadable.globFiles "/r" "*.c" = ["/r/bad.c", "/r/good.c"] ∧
    fsUnreadable.readLines "/r/bad.c" = none ∧
    (fsUnreadable.readLines "/r/good.c").isSome = true ∧
    walk fsUnreadable (Graph.mkEmpty "included-by" false 2)
      { directories := ["/r"], patterns := ["*.c"], prefixes := [""]
        verbose := false } = .error "/r/bad.c" := by
  refine ⟨by decide, by decide, by decide, by decide⟩

/-- C3 amended: a candidate file that cannot be read as text aborts the
whole walk: the exception from `get_includes` propagates, the fold over the
candidate list stops with that error, and no remaining candidate is
processed. -/
theorem unreadable_file_aborts_remaining (fs : FS) (args : Args)
    (path : String) (g : Graph) (f : String) (rest : List String)
    (h1 : fs.isdir f = false) (h2 : fs.readLines f = none) :
    (f :: rest).foldlM (walkFile fs args path) g = .error f := by
  rw [List.foldlM_cons]
  have hw : walkFile fs args path g f = .error f := by
    simp [walkFile, h1, get_includes, h2]
  rw [hw]
  rfl

/-- C3 amended, witness: processing `fsUnreadable`'s candidate list
`[/r/bad.c, /r/good.c]` stops at the first file's read error. -/
theorem unreadable_file_aborts_remaining_witness :
    (["/r/bad.c", "/r/good.c"] : List String).foldlM
      (walkFile fsUnreadable
        { directories := ["/r"], patterns := ["*.c"], prefixes := [""]
          verbose := false } "/r")
      (Graph.mkEmpty "included-by" false 2) = .error "/r/bad.c" :=
  unreadable_file_aborts_remaining fsUnreadable
    { directories := ["/r"], patterns := ["*.c"], prefixes := [""]
      verbose := false } "/r" (Graph.mkEmpty "included-by" false 2)
    "/r/bad.c" ["/r/good.c"] (by decide) (by decide)

/-- C4: for every candidate file under root `d`, the prefix list used to
resolve its include tokens is the root's canonical path, then the
user-configured prefixes, then the empty-string prefix appended by
`parse_arguments`; consequently in the concrete sibling scenario the file
`/root/a/x.h` containing `#include "y.h"` yields an edge to the canonical
path of `/root/a/y.h` although `/root/a` is not among the configured
prefixes. -/
theorem candidate_prefix_order_and_sibling_resolution (raw cooked : CliArgs)
    (fs : FS) (d : String) (g : Graph) (f : String)
    (h : parse_arguments raw = .ok cooked) (hf : fs.isdir f = false) :
    cooked.prefixes = raw.prefixes ++ [""] ∧
    walkFile fs (Args.ofCli cooked) (fs.realpath d) g f
      = (get_includes fs f (fs.realpath d :: (raw.prefixes ++ [""]))).map
          (g.add f) ∧
    ("/root/a" ∉ argsSibling.prefixes ∧
      fsSibling.realpath "/root/a/y.h" = "/root/a/y.h" ∧
      walk fsSibling (Graph.mkEmpty "includes" false 2) argsSibling
        = .ok graphSibling) := by
  have hp : cooked.prefixes = raw.prefixes ++ [""] := by
    unfold parse_arguments at h
    simp only [] at h
    split at h
    · exact absurd h (by simp)
    · have := Except.ok.inj h
      rw [← this]
  refine ⟨hp, ?_, by decide, by decide, by decide⟩
  simp only [walkFile, hf, Bool.false_eq_true, if_false, Args.ofCli, hp]
  cases get_includes fs f (fs.realpath d :: (raw.prefixes ++ [""])) <;>
    simp [Except.map]

/-- C4 witness: the full statement instantiated at the sibling scenario,
with `parse_arguments` run on `cliSibling`. -/
theorem candidate_prefix_order_and_sibling_resolution_witness :
    ({ cliSibling with prefixes := ["/cwd", ""] } : CliArgs).prefixes
      = cliSibling.prefixes ++ [""] ∧
    walkFile fsSibling (Args.ofCli { cliSibling with prefixes := ["/cwd", ""] })
      (fsSibling.realpath "/root/a") (Graph.mkEmpty "includes" false 2)
      "/root/a/x.h"
      = (get_includes fsSibling "/root/a/x.h"
          (fsSibling.realpath "/root/a" :: (cliSibling.prefixes ++ [""]))).map
          ((Graph.mkEmpty "includes" false 2).add "/root/a/x.h") ∧
    ("/root/a" ∉ argsSibling.prefixes ∧
      fsSibling.realpath "/root/a/y.h" = "/root/a/y.h" ∧
      walk fsSibling (Graph.mkEmpty "includes" false 2) argsSibling
        = .ok graphSibling) :=
  candidate_prefix_order_and_sibling_resolution cliSibling
    { cliSibling with prefixes := ["/cwd", ""] } fsSibling "/root/a"
    (Graph.mkEmpty "includes" false 2) "/root/a/x.h" (by decide) (by decide)

/-- C9: no two distinct nodes share a canonical path — after any sequence
of registrations starting from an empty graph the node keys are pairwise
distinct — and registering a path already present returns the existing node
with the graph (hence the node's identity and attributes) unchanged, rather
than creating a duplicate. -/
theorem node_paths_unique (g : Graph) (name : String) (sz : Option Nat)
    (node : Node) (r : String) (fp : Bool) (gg : Int)
    (ops : List (String × List String)) (h : g.findNode name = some node) :
    g._get_or_add_node name sz = (g, node) ∧
    ((runAdds (Graph.mkEmpty r fp gg) ops).nodes.map Prod.fst).Nodup := by
  constructor
  · unfold Graph._get_or_add_node
    rw [h]
  · exact keys_nodup_runAdds ops (Graph.mkEmpty r fp gg) (by simp [Graph.mkEmpty])

/-- C9 witness: re-registering `a.cpp` in the graph that already holds it
returns the stored node unchanged, and a repeated registration sequence
keeps the keys distinct. -/
theorem node_paths_unique_witness :
    ((Graph.mkEmpty "included-by" false 2).add "a.cpp"
      ["b.h"])._get_or_add_node "a.cpp" (some 5)
      = ((Graph.mkEmpty "included-by" false 2).add "a.cpp" ["b.h"],
         { id := 0, size := 1, label := "a.cpp", group := "" }) ∧
    ((runAdds (Graph.mkEmpty "included-by" false 2)
      [("a.cpp", ["b.h"]), ("a.cpp", ["b.h"])]).nodes.map Prod.fst).Nodup :=
  node_paths_unique ((Graph.mkEmpty "included-by" false 2).add "a.cpp" ["b.h"])
    "a.cpp" (some 5) { id := 0, size := 1, label := "a.cpp", group := "" }
    "included-by" false 2 [("a.cpp", ["b.h"]), ("a.cpp", ["b.h"])] (by decide)

/-- C8 amended, witness: granularity 2 on `/proj/src/lib/foo.cpp` gives the
last two segments. -/
theorem group_key_is_two_window_witness :
    ((Graph.mkEmpty "includes" false 2)._add_node "/proj/src/lib/foo.cpp" none).2.group =
      String.intercalate "/"
        (((splitOnSlash (dirname "/proj/src/lib/foo.cpp")).drop
          ((splitOnSlash (dirname "/proj/src/lib/foo.cpp")).length - 2)).take 2) :=
  group_key_is_two_window (Graph.mkEmpty "includes" false 2)
    "/proj/src/lib/foo.cpp" none 2 rfl (by decide)

end Ig
